import Mathlib

/-!
Verification of the normalization core of `src/scripts/content.js`
(the firestore-copy-json extension): leaf coercers, the map-to-array
reconstructor, the two tree walkers, and the root-selection entry point,
shallowly embedded in Lean.
-/

namespace FirestoreCopy

/-- JavaScript number as produced by the coercions in content.js:
NaN, a signed infinity, or a finite value (modelled as a rational). -/
inductive JsNum where
  | nan : JsNum
  | inf : Bool → JsNum
  | fin : ℚ → JsNum
deriving DecidableEq

/-- JSON-like values produced by the parsers in content.js.  `undef` models
JavaScript `undefined` (a missing object property or array hole); JSON
serialization renders both `null` and `undef` inside arrays as null. -/
inductive Value where
  | null : Value
  | undef : Value
  | bool : Bool → Value
  | num : JsNum → Value
  | str : String → Value
  | obj : List (String × Value) → Value
  | arr : List Value → Value

/-- A JavaScript object: an insertion-ordered association list with unique keys
(uniqueness is maintained by `jsInsert`, JavaScript's property assignment). -/
abbrev JsMap := List (String × Value)

/-- JavaScript property assignment `o[k] = v`: an existing key keeps its
position and gets the new value (last write wins); a new key is appended. -/
def jsInsert (m : JsMap) (kv : String × Value) : JsMap :=
  if m.any (fun p => p.1 == kv.1) then
    m.map (fun p => if p.1 == kv.1 then (p.1, kv.2) else p)
  else m ++ [kv]

/-- JavaScript property read `o[k]`: the stored value, or `undefined`. -/
def jsGet (m : JsMap) (k : String) : Value :=
  match m.find? (fun p => p.1 == k) with
  | some p => p.2
  | none => Value.undef

/-- Build an object by assigning the listed key/value pairs in order,
exactly as the walkers' `data[key] = val` / `Object.assign` loops do. -/
def jsObjFromList (l : List (String × Value)) : JsMap := l.foldl jsInsert []

/-- JavaScript `String.prototype.trim` on the character list (ASCII
whitespace; list-based so that it evaluates inside the kernel). -/
def jsTrimList (cs : List Char) : List Char :=
  ((cs.dropWhile Char.isWhitespace).reverse.dropWhile Char.isWhitespace).reverse

/-- JavaScript `s.trim()`. -/
def jsTrim (s : String) : String := String.mk (jsTrimList s.data)

/-- JavaScript `s.toLowerCase()` (ASCII). -/
def jsToLower (s : String) : String := String.mk (s.data.map Char.toLower)

/-- JavaScript `s.startsWith(c)` for a one-character prefix. -/
def jsStartsWith (s : String) (c : Char) : Bool :=
  match s.data with
  | [] => false
  | a :: _ => a == c

/-- JavaScript `s.endsWith(c)` for a one-character suffix. -/
def jsEndsWith (s : String) (c : Char) : Bool :=
  match s.data.getLast? with
  | some a => a == c
  | none => false

/-- JavaScript `s.slice(1, -1)`: drop the first and last character. -/
def jsStripEnds (s : String) : String := String.mk ((s.data.drop 1).dropLast)

/-- `split("/")` on the character list: always at least one piece. -/
def splitOnSlash : List Char → List (List Char)
  | [] => [[]]
  | c :: rest =>
    if c = '/' then [] :: splitOnSlash rest
    else
      match splitOnSlash rest with
      | h :: t => (c :: h) :: t
      | [] => [[c]]

/-- JavaScript `s.split("/")`. -/
def jsSplitSlash (s : String) : List String := (splitOnSlash s.data).map String.mk

/-- Value of a big-endian list of decimal digit characters. -/
def digitsToNat (cs : List Char) : Nat :=
  cs.foldl (fun a c => 10 * a + (c.toNat - 48)) 0

/-- Little-endian decimal digit characters of `n` (fuelled; fuel `n` is ample
since `n / 10 < n`). -/
def natDecCharsAux : Nat → Nat → List Char
  | 0, _ => []
  | _, 0 => []
  | f + 1, n + 1 => Nat.digitChar ((n + 1) % 10) :: natDecCharsAux f ((n + 1) / 10)

/-- Big-endian decimal digit characters of a positive `n`. -/
def natDecChars (n : Nat) : List Char := (natDecCharsAux n n).reverse

/-- JavaScript `ToString` applied to an integer-valued number: the plain
decimal spelling, with a leading minus sign for negatives. -/
def jsIntToString (n : Int) : String :=
  (if n < 0 then "-" else "") ++
    String.mk (if n.natAbs = 0 then ['0'] else natDecChars n.natAbs)

/-- The longest decimal-digit prefix of `cs`, as a number; none if empty. -/
def jsDigitsPrefixVal (cs : List Char) : Option Nat :=
  let ds := cs.takeWhile (fun c => c.isDigit)
  if ds.isEmpty then none else some (digitsToNat ds)

/-- Sign handling of `parseInt` after whitespace has been skipped. -/
def jsParseIntAux : List Char → Option Int
  | [] => none
  | c :: rest =>
    if c = '-' then Option.map (fun m : Nat => -(m : Int)) (jsDigitsPrefixVal rest)
    else if c = '+' then Option.map (fun m : Nat => (m : Int)) (jsDigitsPrefixVal rest)
    else Option.map (fun m : Nat => (m : Int)) (jsDigitsPrefixVal (c :: rest))

/-- JavaScript `parseInt(s, 10)`: skip leading whitespace, accept an optional
sign, then read the longest digit prefix; NaN (none) when no digit follows.
Trailing garbage is ignored, so "1.9" parses to 1 and "-1" to -1. -/
def jsParseInt (s : String) : Option Int :=
  jsParseIntAux (s.toList.dropWhile (fun c => c.isWhitespace))

/-- Value of a hexadecimal digit character, if it is one. -/
def hexDigitVal (c : Char) : Option Nat :=
  if c.isDigit then some (c.toNat - 48)
  else if 'a' ≤ c ∧ c ≤ 'f' then some (c.toNat - 87)
  else if 'A' ≤ c ∧ c ≤ 'F' then some (c.toNat - 55)
  else none

/-- Whole-string radix literal value (for 0x/0o/0b literals); none when empty
or any character is not a digit of the base. -/
def radixVal (b : Nat) (cs : List Char) : Option Nat :=
  if cs.isEmpty then none
  else cs.foldl (fun acc c =>
    match acc, hexDigitVal c with
    | some a, some d => if d < b then some (b * a + d) else none
    | _, _ => none) (some 0)

/-- `10 ^ e` over the rationals, for an integer exponent. -/
def qpow10 (e : Int) : ℚ :=
  if 0 ≤ e then (10 : ℚ) ^ e.toNat else ((10 : ℚ) ^ (-e).toNat)⁻¹

/-- Exponent part of a decimal literal: empty means exponent 0; otherwise
`e`/`E`, an optional sign and digits, with nothing allowed after them. -/
def parseExpPart (cs : List Char) : Option Int :=
  match cs with
  | [] => some 0
  | c :: rest =>
    if c = 'e' ∨ c = 'E' then
      let sgn : Bool × List Char := match rest with
        | '-' :: r2 => (true, r2)
        | '+' :: r2 => (false, r2)
        | _ => (false, rest)
      let ds := sgn.2.takeWhile (fun d => d.isDigit)
      let rem := sgn.2.dropWhile (fun d => d.isDigit)
      if ds.isEmpty ∨ ¬ rem.isEmpty then none
      else some (if sgn.1 then -(digitsToNat ds : Int) else (digitsToNat ds : Int))
    else none

/-- Unsigned decimal mantissa with optional fraction and exponent, consuming
the whole string (ECMAScript StrUnsignedDecimalLiteral). -/
def parseDecMantissa (cs : List Char) : Option ℚ :=
  let ip := cs.takeWhile (fun c => c.isDigit)
  let r1 := cs.dropWhile (fun c => c.isDigit)
  match r1 with
  | '.' :: r2 =>
    let fp := r2.takeWhile (fun c => c.isDigit)
    let r3 := r2.dropWhile (fun c => c.isDigit)
    if ip.isEmpty ∧ fp.isEmpty then none
    else (parseExpPart r3).map (fun e =>
      ((digitsToNat ip : ℚ) + (digitsToNat fp : ℚ) / (10 : ℚ) ^ fp.length) * qpow10 e)
  | _ =>
    if ip.isEmpty then none
    else (parseExpPart r1).map (fun e => (digitsToNat ip : ℚ) * qpow10 e)

/-- JavaScript `Number(string)` (ToNumber on a string): trim, empty is 0,
radix-prefixed literals, otherwise an optionally signed decimal literal or
Infinity; anything else is NaN. -/
def jsStrToNumber (s : String) : JsNum :=
  match jsTrimList s.data with
  | [] => JsNum.fin 0
  | '0' :: 'x' :: rest => (match radixVal 16 rest with | some m => JsNum.fin m | none => JsNum.nan)
  | '0' :: 'X' :: rest => (match radixVal 16 rest with | some m => JsNum.fin m | none => JsNum.nan)
  | '0' :: 'o' :: rest => (match radixVal 8 rest with | some m => JsNum.fin m | none => JsNum.nan)
  | '0' :: 'O' :: rest => (match radixVal 8 rest with | some m => JsNum.fin m | none => JsNum.nan)
  | '0' :: 'b' :: rest => (match radixVal 2 rest with | some m => JsNum.fin m | none => JsNum.nan)
  | '0' :: 'B' :: rest => (match radixVal 2 rest with | some m => JsNum.fin m | none => JsNum.nan)
  | cs =>
    let sgn : Bool × List Char := match cs with
      | '-' :: r => (true, r)
      | '+' :: r => (false, r)
      | _ => (false, cs)
    if sgn.2 = "Infinity".toList then JsNum.inf sgn.1
    else match parseDecMantissa sgn.2 with
      | some q => JsNum.fin (if sgn.1 then -q else q)
      | none => JsNum.nan

/-- PRODUCTION `parseLeafValue` (content.js lines 8-24): trim, strip one
layer of surrounding double quotes, match true/false/null case-insensitively,
then try a full-string numeric parse (the empty string excluded), else keep
the string. -/
def parseLeafValue (rawText : String) : Value :=
  let v0 := jsTrim rawText
  let value := if jsStartsWith v0 '"' && jsEndsWith v0 '"' then jsStripEnds v0 else v0
  let lowerVal := jsToLower value
  if lowerVal = "true" then Value.bool true
  else if lowerVal = "false" then Value.bool false
  else if lowerVal = "null" then Value.null
  else
    let asNumber := jsStrToNumber value
    if asNumber ≠ JsNum.nan ∧ value ≠ "" then Value.num asNumber
    else Value.str value

/-- EMULATOR `parseEmulatorLeafValue` (content.js lines 107-125).  `raw` is
optional because the JavaScript guards against null/undefined (both become
""); `type` is optional because `type || ""` guards a missing label. -/
def parseEmulatorLeafValue (raw : Option String) (type : Option String) : Value :=
  let t := jsToLower (type.getD "")
  let val := jsTrim (raw.getD "")
  if t = "(null)" then Value.null
  else if t = "(boolean)" then Value.bool (val == "true")
  else if t = "(number)" then Value.num (jsStrToNumber val)
  else if t = "(string)" then
    Value.str (if jsStartsWith val '"' && jsEndsWith val '"' then jsStripEnds val else val)
  else Value.str val

/-- The key list `convertMapToArray` works from: `Object.keys(mapObj)` mapped
through `parseInt`, NaN dropped, sorted ascending numerically. -/
def cmtaKeys (mapObj : JsMap) : List Int :=
  List.insertionSort (fun a b => a ≤ b) ((mapObj.map Prod.fst).filterMap jsParseInt)

/-- EMULATOR `convertMapToArray` (content.js lines 130-138): parse the keys,
drop NaN, sort ascending, and map each parsed key through `mapObj[k]` (the
lookup converts the number back to its canonical decimal spelling). -/
def convertMapToArray (mapObj : JsMap) : List Value :=
  if (cmtaKeys mapObj).isEmpty then []
  else (cmtaKeys mapObj).map (fun k => jsGet mapObj (jsIntToString k))

/-- Last value assigned to index `j`, or an (undefined) hole. -/
def lastAssignAt (assigns : List (Int × Value)) (j : Nat) : Value :=
  match (assigns.filter (fun p => p.1 == (j : Int))).getLast? with
  | some p => p.2
  | none => Value.undef

/-- Dense element view of a JavaScript array populated by `a[i] = v`
assignments: length is one more than the largest assigned non-negative
index, later assignments win, unassigned slots are holes, and assignments
at negative indices create non-element properties that this view ignores. -/
def jsArrayFromAssigns (assigns : List (Int × Value)) : List Value :=
  (List.range (assigns.foldl (fun acc p => max acc (p.1 + 1).toNat) 0)).map
    (lastAssignAt assigns)

mutual
/-- A rendered DOM element: tag, class list, attributes, own text, and the
ordered child elements.  The parsers read nothing else from the view. -/
inductive Dom where
  | el : String → List String → List (String × String) → String → DomForest → Dom
/-- An ordered sequence of elements (isomorphic to a list; a separate type
only so that the size measure below is structurally recursive and therefore
evaluates inside the kernel). -/
inductive DomForest where
  | nil : DomForest
  | cons : Dom → DomForest → DomForest
end

mutual
/-- Number of elements of a tree; an upper bound on its depth, used as fuel
for the recursive walkers below. -/
def domSize : Dom → Nat
  | .el _ _ _ _ ch => 1 + forestSize ch
/-- Number of elements of a forest. -/
def forestSize : DomForest → Nat
  | .nil => 0
  | .cons d rest => domSize d + forestSize rest
end

def DomForest.toList : DomForest → List Dom
  | .nil => []
  | .cons d rest => d :: rest.toList

def domForestOfList : List Dom → DomForest
  | [] => .nil
  | d :: rest => .cons d (domForestOfList rest)

/-- Convenience constructor taking the children as a plain list. -/
def mkEl (tag : String) (classes : List String) (attrs : List (String × String))
    (text : String) (children : List Dom) : Dom :=
  Dom.el tag classes attrs text (domForestOfList children)

def Dom.tag : Dom → String
  | .el t _ _ _ _ => t

def Dom.classes : Dom → List String
  | .el _ c _ _ _ => c

def Dom.attrs : Dom → List (String × String)
  | .el _ _ a _ _ => a

def Dom.text : Dom → String
  | .el _ _ _ s _ => s

def Dom.children : Dom → List Dom
  | .el _ _ _ _ ch => ch.toList

/-- `classList.contains`. -/
def hasClass (d : Dom) (cls : String) : Bool := d.classes.contains cls

/-- `getAttribute` (none models the JavaScript null for a missing attribute). -/
def getAttr (d : Dom) (name : String) : Option String :=
  (d.attrs.find? (fun p => p.1 == name)).map Prod.snd

/-- Concatenated text of a forest, document order (fuelled recursion; every
wrapper passes a fuel at least the size of the tree searched, which bounds
the recursion depth, so the fuel never runs out). -/
def textContentL : Nat → List Dom → String
  | 0, _ => ""
  | _ + 1, [] => ""
  | f + 1, d :: rest => d.text ++ textContentL f d.children ++ textContentL f rest

/-- `textContent` of an element. -/
def textContent (d : Dom) : String := d.text ++ textContentL (domSize d) d.children

/-- `querySelector(".cls")` on a forest: first element in document order
(preorder) carrying the class. -/
def findClassL (cls : String) : Nat → List Dom → Option Dom
  | 0, _ => none
  | _ + 1, [] => none
  | f + 1, d :: rest =>
    if hasClass d cls then some d
    else match findClassL cls f d.children with
      | some r => some r
      | none => findClassL cls f rest

/-- `querySelectorAll(".cls")` on a forest, document order. -/
def findAllClassL (cls : String) : Nat → List Dom → List Dom
  | 0, _ => []
  | _ + 1, [] => []
  | f + 1, d :: rest =>
    (if hasClass d cls then [d] else []) ++ findAllClassL cls f d.children ++
      findAllClassL cls f rest

/-- `querySelectorAll("tagname")` on a forest, document order. -/
def findAllTagL (t : String) : Nat → List Dom → List Dom
  | 0, _ => []
  | _ + 1, [] => []
  | f + 1, d :: rest =>
    (if d.tag == t then [d] else []) ++ findAllTagL t f d.children ++
      findAllTagL t f rest

/-- Descendant-combinator query such as `.anc .target` or `:scope anc .target`:
first element (document order) satisfying `tgt` that has an ancestor inside the
searched forest satisfying `anc`; `u` records whether such an ancestor has
already been passed. -/
def findUnderL (anc tgt : Dom → Bool) : Nat → List Dom → Bool → Option Dom
  | 0, _, _ => none
  | _ + 1, [], _ => none
  | f + 1, d :: rest, u =>
    if u && tgt d then some d
    else match findUnderL anc tgt f d.children (u || anc d) with
      | some r => some r
      | none => findUnderL anc tgt f rest u

/-- `:scope > .cls`: first direct child with the class. -/
def childWithClass (d : Dom) (cls : String) : Option Dom :=
  d.children.find? (fun c => hasClass c cls)

/-- `:scope > tagname`: the direct children with the tag, in order. -/
def childrenWithTag (d : Dom) (t : String) : List Dom :=
  d.children.filter (fun c => c.tag == t)

/-- `:scope > .cls` (all): the direct children with the class, in order. -/
def childrenWithClassL (d : Dom) (cls : String) : List Dom :=
  d.children.filter (fun c => hasClass c cls)

/-- Pair every element of a list with its next sibling (`nextElementSibling`). -/
def withNext : List Dom → List (Dom × Option Dom)
  | [] => []
  | [x] => [(x, none)]
  | x :: y :: rest => (x, some y) :: withNext (y :: rest)

/-- The container's `:scope > li.FieldPreview` items, each with its next
sibling among all children. -/
def itemsWithNext (cs : List Dom) : List (Dom × Option Dom) :=
  (withNext cs).filter (fun en => en.1.tag == "li" && hasClass en.1 "FieldPreview")

/-- EMULATOR `parseEmulatorContainer` (content.js lines 143-195), as the list
of `key → value` entries the `items.forEach` loop assigns, in document order:
for each `li.FieldPreview` child, skip it if it has no `.FieldPreview-key`
descendant; read its `.FieldPreview-type` ("" if absent); for `(map)`/
`(array)` parse the next sibling when it is a `.FieldPreview-children`
container (else an empty map/array), with the array case run through
`convertMapToArray`; otherwise coerce the `.FieldPreview-summary` text
(title attribute preferred) as a typed leaf. -/
def emuEntriesF : Nat → Dom → List (String × Value)
  | 0, _ => []
  | f + 1, c =>
    (itemsWithNext c.children).filterMap (fun en =>
      match findClassL "FieldPreview-key" (domSize en.1) en.1.children with
      | none => none
      | some keyElem =>
        let key : String := jsTrim (textContent keyElem)
        let typeLabel : String := match findClassL "FieldPreview-type" (domSize en.1) en.1.children with
          | some te => jsTrim (textContent te)
          | none => ""
        let emptyContainer : Value :=
          if typeLabel == "(array)" then Value.arr [] else Value.obj []
        let val : Value :=
          if typeLabel == "(map)" || typeLabel == "(array)" then
            match en.2 with
            | some sib =>
              if hasClass sib "FieldPreview-children" then
                let children := jsObjFromList (emuEntriesF f sib)
                if typeLabel == "(array)" then Value.arr (convertMapToArray children)
                else Value.obj children
              else emptyContainer
            | none => emptyContainer
          else
            let raw : String := match findClassL "FieldPreview-summary" (domSize en.1) en.1.children with
              | some se =>
                match getAttr se "title" with
                | some t => t
                | none => textContent se
              | none => ""
            parseEmulatorLeafValue (some raw) (some typeLabel)
        some (key, val))

/-- The emulator container's entries in assignment (document) order. -/
def emuEntries (c : Dom) : List (String × Value) := emuEntriesF (domSize c) c

/-- EMULATOR `parseEmulatorContainer`: the object the assignment loop builds. -/
def parseEmulatorContainer (c : Dom) : JsMap := jsObjFromList (emuEntries c)

/-- The `parseMap`/`parseArray` traversal (content.js lines 61-98): every
`:scope > .database-node` of every `:scope > f7e-data-tree` child, in
document order, sent through the given single-node parser. -/
def prodEntriesWith (p : Dom → JsMap) (c : Dom) : List (String × Value) :=
  (childrenWithTag c "f7e-data-tree").flatMap (fun t =>
    (childrenWithClassL t "database-node").flatMap (fun nd => p nd))

/-- The index assignments `parseArray` performs: each parsed node entry whose
key survives `parseInt` becomes an assignment `resultArray[index] = value`. -/
def prodArrayAssignsWith (p : Dom → JsMap) (c : Dom) : List (Int × Value) :=
  (childrenWithTag c "f7e-data-tree").flatMap (fun t =>
    (childrenWithClassL t "database-node").flatMap (fun nd =>
      (p nd).filterMap (fun kv => (jsParseInt kv.1).map (fun i => (i, kv.2)))))

/-- PRODUCTION `parseNode` (content.js lines 29-56): empty map when no
`.database-key` descendant; else one entry whose value is decided by the
`.database-buttons .database-type` label — `(map)`/`(array)` recurse into
the `:scope > .database-children` child (absent container degrades to an
empty map/array), anything else reads the `.database-leaf-value` descendant
through the untyped leaf coercion (absent leaf degrades to null). -/
def parseNodeF : Nat → Dom → JsMap
  | 0, _ => []
  | f + 1, n =>
    match findClassL "database-key" (domSize n) n.children with
    | none => []
    | some keySpan =>
      let fieldKey := jsTrim (textContent keySpan)
      let typeText := match findUnderL (fun d => hasClass d "database-buttons")
          (fun d => hasClass d "database-type") (domSize n) n.children false with
        | some td => jsTrim (textContent td)
        | none => "(unknown)"
      let value :=
        if typeText = "(map)" then
          Value.obj (jsObjFromList (match childWithClass n "database-children" with
            | none => []
            | some mc => prodEntriesWith (fun nd => parseNodeF f nd) mc))
        else if typeText = "(array)" then
          Value.arr (jsArrayFromAssigns (match childWithClass n "database-children" with
            | none => []
            | some ac => prodArrayAssignsWith (fun nd => parseNodeF f nd) ac))
        else
          match findClassL "database-leaf-value" (domSize n) n.children with
          | some leafSpan => parseLeafValue (textContent leafSpan)
          | none => Value.null
      [(fieldKey, value)]

/-- PRODUCTION `parseNode` on a node. -/
def parseNode (n : Dom) : JsMap := parseNodeF (domSize n) n

/-- The entries fed into a map container's accumulating `Object.assign`. -/
def prodEntries (c : Dom) : List (String × Value) :=
  prodEntriesWith (fun nd => parseNodeF (domSize c) nd) c

/-- PRODUCTION `parseMap` (content.js lines 61-74): null container is an
empty map, otherwise fold every parsed node entry by assignment. -/
def parseMap (c? : Option Dom) : JsMap :=
  match c? with
  | none => []
  | some c => jsObjFromList (prodEntries c)

/-- The index assignments of `parseArray` on a (possibly null) container. -/
def parseArrayAssigns (c? : Option Dom) : List (Int × Value) :=
  match c? with
  | none => []
  | some c => prodArrayAssignsWith (fun nd => parseNodeF (domSize c) nd) c

/-- PRODUCTION `parseArray` (content.js lines 79-98): the dense view of the
positional assignments (a null container yields an empty array). -/
def parseArray (c? : Option Dom) : Value :=
  Value.arr (jsArrayFromAssigns (parseArrayAssigns c?))

/-- One `fs-animate-change-classes` element of the production panel loop
(content.js lines 272-294): skipped without a `.database-key`, otherwise
parsed like a node except that the containers are located by a plain
descendant query `.database-children`. -/
def prodPanelEntry (e : Dom) : Option (String × Value) :=
  match findClassL "database-key" (domSize e) e.children with
  | none => none
  | some keySpan =>
    let fieldKey := jsTrim (textContent keySpan)
    let typeText := match findUnderL (fun d => hasClass d "database-buttons")
        (fun d => hasClass d "database-type") (domSize e) e.children false with
      | some td => jsTrim (textContent td)
      | none => "(unknown)"
    let value :=
      if typeText = "(map)" then
        Value.obj (parseMap (findClassL "database-children" (domSize e) e.children))
      else if typeText = "(array)" then
        parseArray (findClassL "database-children" (domSize e) e.children)
      else
        match findClassL "database-leaf-value" (domSize e) e.children with
        | some leafSpan => parseLeafValue (textContent leafSpan)
        | none => Value.null
    some (fieldKey, value)

/-- The `dataObject` built by the production path: every
`fs-animate-change-classes` descendant of the panel, in document order. -/
def prodFields (panel : Dom) : JsMap :=
  jsObjFromList ((findAllTagL "fs-animate-change-classes" (domSize panel)
    panel.children).filterMap prodPanelEntry)

/-- The production document id (content.js lines 256-262): the trimmed text
of `:scope f7e-panel-header .label`, with a fixed placeholder if absent. -/
def prodDocIdOf (panel : Dom) : String :=
  match findUnderL (fun d => d.tag == "f7e-panel-header") (fun d => hasClass d "label")
      (domSize panel) panel.children false with
  | some lab => jsTrim (textContent lab)
  | none => "UNKNOWN_DOCUMENT_ID"

/-- The emulator document id (content.js lines 242-243): the last element of
`window.location.pathname.split("/")`; `split` never returns an empty list,
so the "unknown_doc" fallback is unreachable in JavaScript. -/
def emuDocIdOf (pathname : String) : String :=
  let parts := jsSplitSlash pathname
  if parts.length > 0 then parts.getLastD "unknown_doc" else "unknown_doc"

/-- Outcome of step 1 of `getFirestoreJSON`: which root was identified. -/
inductive RootChoice where
  | emu : Dom → RootChoice
  | prod : Dom → RootChoice
  | noRoot : RootChoice

/-- `document.querySelector(".cls")`: the whole view, root included. -/
def docFindClass (doc : Dom) (cls : String) : Option Dom :=
  findClassL cls (domSize doc + 1) [doc]

/-- Root determination of `getFirestoreJSON` (content.js lines 201-233): an
explicit scope is classified by its class markers, then by containing an
emulator field list, defaulting to a production panel; a global invocation
prefers any emulator field list in the document and otherwise takes the
last `.panel-container` under the first `.panels-container`. -/
def rootSelect (doc : Dom) (ctx : Option Dom) : RootChoice :=
  match ctx with
  | some root =>
    if hasClass root "Firestore-Field-List" then .emu root
    else if hasClass root "panel-container" then .prod root
    else
      match findClassL "Firestore-Field-List" (domSize root) root.children with
      | some e => .emu e
      | none => .prod root
  | none =>
    match docFindClass doc "Firestore-Field-List" with
    | some e => .emu e
    | none =>
      match docFindClass doc "panels-container" with
      | none => .noRoot
      | some pc =>
        match (findAllClassL "panel-container" (domSize pc) pc.children).getLast? with
        | none => .noRoot
        | some p => .prod p

/-- No recognizable root anywhere: no emulator field list and no panel under
a panels container. -/
def noRootFound (doc : Dom) : Bool :=
  (docFindClass doc "Firestore-Field-List").isNone &&
  (match docFindClass doc "panels-container" with
   | none => true
   | some pc => (findAllClassL "panel-container" (domSize pc) pc.children).isEmpty)

/-- The value `getFirestoreJSON` returns on success: the derived document id
and `data = { [docId]: fields }` (the serialized `jsonString` field is
`JSON.stringify(data, null, 2)` and is not modelled separately). -/
structure FSResult where
  docId : String
  data : List (String × Value)

/-- The emulator-path result (content.js lines 236-251). -/
def emuResultOf (pathname : String) (root : Dom) : FSResult :=
  let docId := emuDocIdOf pathname
  ⟨docId, [(docId, Value.obj (parseEmulatorContainer root))]⟩

/-- The production-path result (content.js lines 253-302). -/
def prodResultOf (panel : Dom) : FSResult :=
  let docId := prodDocIdOf panel
  ⟨docId, [(docId, Value.obj (prodFields panel))]⟩

/-- `getFirestoreJSON` (content.js lines 201-307): `doc` is the document
tree, `pathname` is `window.location.pathname`, `contextRoot` the optional
scope argument; the thrown error is modelled as `Except.error`. -/
def getFirestoreJSON (doc : Dom) (pathname : String) (contextRoot : Option Dom) :
    Except String FSResult :=
  match rootSelect doc contextRoot with
  | .emu e => .ok (emuResultOf pathname e)
  | .prod p => .ok (prodResultOf p)
  | .noRoot => .error "No Firestore data found (Production or Emulator)."


/-- The later entry wins: value of the last entry in `l` carrying key `k`
(`undef` when there is none). -/
def lastEntryVal (l : List (String × Value)) (k : String) : Value :=
  match (l.filter (fun p => p.1 == k)).getLast? with
  | some p => p.2
  | none => Value.undef

theorem fst_comp_update (k k' : String) (v : Value) :
    ((fun p : String × Value => p.1 == k') ∘ (fun p : String × Value =>
      if p.1 == k then (p.1, v) else p)) = (fun p : String × Value => p.1 == k') := by
  funext p
  simp only [Function.comp_apply]
  split <;> rfl

theorem find?_update (m : JsMap) (k k' : String) (v : Value) :
    (m.map (fun p => if p.1 == k then (p.1, v) else p)).find? (fun p => p.1 == k') =
      (m.find? (fun p => p.1 == k')).map (fun p => if p.1 == k then (p.1, v) else p) := by
  rw [List.find?_map, fst_comp_update]

theorem map_fst_update (m : JsMap) (k : String) (v : Value) :
    (m.map (fun p => if p.1 == k then (p.1, v) else p)).map Prod.fst = m.map Prod.fst := by
  rw [List.map_map]
  apply List.map_congr_left
  intro p _
  by_cases hp : p.1 = k <;> simp [hp]

theorem jsGet_jsInsert_self (m : JsMap) (kv : String × Value) :
    jsGet (jsInsert m kv) kv.1 = kv.2 := by
  unfold jsInsert jsGet
  by_cases h : m.any (fun p => p.1 == kv.1)
  · rw [if_pos h, find?_update]
    rcases hf : m.find? (fun p => p.1 == kv.1) with _ | p
    · exfalso
      rw [List.find?_eq_none] at hf
      rcases List.any_eq_true.mp h with ⟨x, hx, hpx⟩
      exact hf x hx hpx
    · have hpk : p.1 = kv.1 := by simpa using List.find?_some hf
      rw [hf]
      simp [hpk]
  · rw [if_neg h]
    have hf : m.find? (fun p => p.1 == kv.1) = none := by
      rw [List.find?_eq_none]
      intro x hx hpx
      exact h (List.any_eq_true.mpr ⟨x, hx, hpx⟩)
    rw [List.find?_append, hf, Option.none_or]
    simp [List.find?_cons]

theorem jsGet_jsInsert_ne (m : JsMap) (kv : String × Value) (k : String)
    (hne : kv.1 ≠ k) :
    jsGet (jsInsert m kv) k = jsGet m k := by
  unfold jsInsert jsGet
  by_cases h : m.any (fun p => p.1 == kv.1)
  · rw [if_pos h, find?_update]
    rcases hf : m.find? (fun p => p.1 == k) with _ | p
    · rw [hf]; rfl
    · have hpk : p.1 = k := by simpa using List.find?_some hf
      have hcond : p.1 ≠ kv.1 := by
        rw [hpk]
        exact fun hc => hne hc.symm
      rw [hf]
      simp [hcond]
  · rw [if_neg h, List.find?_append]
    simp [List.find?_cons, hne, Option.or_none]

theorem jsObjFromList_append_singleton (l : List (String × Value)) (a : String × Value) :
    jsObjFromList (l ++ [a]) = jsInsert (jsObjFromList l) a := by
  unfold jsObjFromList
  rw [List.foldl_append]
  rfl

theorem jsGet_jsObjFromList (l : List (String × Value)) (k : String) :
    jsGet (jsObjFromList l) k = lastEntryVal l k := by
  induction l using List.reverseRecOn with
  | nil => rfl
  | append_singleton t a ih =>
    rw [jsObjFromList_append_singleton]
    by_cases h : (a.1 == k : Bool)
    · have hk : a.1 = k := by simpa using h
      have hv : jsGet (jsInsert (jsObjFromList t) a) k = a.2 := by
        rw [← hk]; exact jsGet_jsInsert_self _ _
      rw [hv]
      unfold lastEntryVal
      rw [List.filter_append]
      simp [List.filter_cons, h, List.getLast?_concat]
    · have hne : a.1 ≠ k := by simpa using h
      rw [jsGet_jsInsert_ne _ _ _ hne, ih]
      unfold lastEntryVal
      rw [List.filter_append]
      simp [List.filter_cons, h]

theorem nodup_keys_foldl (l : List (String × Value)) (m : JsMap)
    (hm : (m.map Prod.fst).Nodup) : ((l.foldl jsInsert m).map Prod.fst).Nodup := by
  induction l generalizing m with
  | nil => exact hm
  | cons a t ih =>
    apply ih
    unfold jsInsert
    by_cases h : m.any (fun p => p.1 == a.1)
    · rw [if_pos h, map_fst_update]; exact hm
    · rw [if_neg h]
      have hnotin : a.1 ∉ m.map Prod.fst := by
        intro hin
        rcases List.mem_map.mp hin with ⟨p, hp, hfst⟩
        exact h (List.any_eq_true.mpr ⟨p, hp, by simp [hfst]⟩)
      rw [List.map_append]
      refine List.Nodup.append hm (by simp) ?_
      intro x hx hmem
      simp only [List.map_cons, List.map_nil, List.mem_singleton] at hmem
      subst hmem
      exact hnotin hx

theorem nodup_keys_jsObjFromList (l : List (String × Value)) :
    ((jsObjFromList l).map Prod.fst).Nodup :=
  nodup_keys_foldl l [] (by simp)


theorem digitChar_good (d : Nat) (h : d < 10) :
    (Nat.digitChar d).isDigit = true ∧ (Nat.digitChar d).isWhitespace = false ∧
      Nat.digitChar d ≠ '-' ∧ Nat.digitChar d ≠ '+' := by
  interval_cases d <;> exact ⟨by decide, by decide, by decide, by decide⟩

theorem digitChar_toNat (d : Nat) (h : d < 10) : (Nat.digitChar d).toNat = 48 + d := by
  interval_cases d <;> decide

theorem natDecCharsAux_good (f : Nat) : ∀ (n : Nat), ∀ c ∈ natDecCharsAux f n,
    c.isDigit = true ∧ c.isWhitespace = false ∧ c ≠ '-' ∧ c ≠ '+' := by
  induction f with
  | zero => intro n c hc; simp [natDecCharsAux] at hc
  | succ f ih =>
    intro n c hc
    cases n with
    | zero => simp [natDecCharsAux] at hc
    | succ m =>
      rw [natDecCharsAux] at hc
      rcases List.mem_cons.mp hc with h1 | h2
      · subst h1
        exact digitChar_good _ (Nat.mod_lt _ (by omega))
      · exact ih _ c h2

theorem digitsToNat_append (l : List Char) (c : Char) :
    digitsToNat (l ++ [c]) = 10 * digitsToNat l + (c.toNat - 48) := by
  unfold digitsToNat
  rw [List.foldl_append]
  rfl

theorem digitsToNat_natDecCharsAux (f : Nat) : ∀ (n : Nat), n ≤ f →
    digitsToNat ((natDecCharsAux f n).reverse) = n := by
  induction f with
  | zero =>
    intro n hn
    have : n = 0 := by omega
    subst this
    rfl
  | succ f ih =>
    intro n hn
    cases n with
    | zero => rfl
    | succ m =>
      rw [natDecCharsAux, List.reverse_cons, digitsToNat_append,
        ih ((m + 1) / 10) (by omega), digitChar_toNat _ (Nat.mod_lt _ (by omega))]
      omega

theorem takeWhile_all {α : Type} {p : α → Bool} :
    ∀ l : List α, (∀ c ∈ l, p c = true) → l.takeWhile p = l := by
  intro l h
  induction l with
  | nil => rfl
  | cons a t ih =>
    rw [List.takeWhile_cons, h a (List.mem_cons_self a t)]
    exact congrArg (a :: ·) (ih (fun c hc => h c (List.mem_cons_of_mem a hc)))

/-- Round trip: the canonical decimal spelling of an integer parses back to
the integer, so the lookups `mapObj[k]` in `convertMapToArray` hit exactly
the keys whose `parseInt` value is the canonical spelling's one. -/
theorem jsParseInt_jsIntToString (n : Int) : jsParseInt (jsIntToString n) = some n := by
  cases n with
  | ofNat m =>
    cases m with
    | zero => decide
    | succ m0 =>
      have hlt : ¬((Int.ofNat (m0 + 1)) < 0) := by
        show ¬(((m0 + 1 : Nat) : Int) < 0)
        omega
      unfold jsIntToString
      rw [if_neg hlt]
      have habs : (Int.ofNat (m0 + 1)).natAbs = m0 + 1 := rfl
      rw [habs]
      have hne : (m0 + 1) ≠ 0 := by omega
      rw [if_neg hne]
      have hdata : (("" ++ String.mk (natDecChars (m0 + 1))).toList) = natDecChars (m0 + 1) := by
        show ("" ++ String.mk (natDecChars (m0 + 1))).data = natDecChars (m0 + 1)
        rw [String.data_append]
        rfl
      unfold jsParseInt
      rw [hdata]
      unfold natDecChars
      rcases hds : (natDecCharsAux (m0 + 1) (m0 + 1)).reverse with _ | ⟨c, cs⟩
      · exfalso
        rw [natDecCharsAux] at hds
        simp at hds
      · have hmem : ∀ x ∈ c :: cs, x.isDigit = true ∧ x.isWhitespace = false ∧
            x ≠ '-' ∧ x ≠ '+' := by
          intro x hx
          refine natDecCharsAux_good (m0 + 1) (m0 + 1) x ?_
          have hx2 : x ∈ (natDecCharsAux (m0 + 1) (m0 + 1)).reverse := by
            rw [hds]; exact hx
          simpa using hx2
        have hcgood := hmem c (List.mem_cons_self c cs)
        have hdrop : (c :: cs).dropWhile (fun ch => ch.isWhitespace) = c :: cs := by
          rw [List.dropWhile_cons, hcgood.2.1]
          simp
        rw [hdrop]
        rw [jsParseIntAux, if_neg hcgood.2.2.1, if_neg hcgood.2.2.2]
        unfold jsDigitsPrefixVal
        rw [takeWhile_all (c :: cs) (fun x hx => (hmem x hx).1)]
        have hval : digitsToNat (c :: cs) = m0 + 1 := by
          rw [← hds]
          exact digitsToNat_natDecCharsAux _ _ (le_refl _)
        simp [hval]
  | negSucc m =>
    have hlt : (Int.negSucc m) < 0 := Int.negSucc_lt_zero m
    unfold jsIntToString
    rw [if_pos hlt]
    have habs : (Int.negSucc m).natAbs = m + 1 := rfl
    rw [habs]
    have hne : (m + 1) ≠ 0 := by omega
    rw [if_neg hne]
    have hdata : (("-" ++ String.mk (natDecChars (m + 1))).toList) =
        '-' :: natDecChars (m + 1) := by
      show ("-" ++ String.mk (natDecChars (m + 1))).data = '-' :: natDecChars (m + 1)
      rw [String.data_append]
      rfl
    unfold jsParseInt
    rw [hdata]
    have hdrop : ('-' :: natDecChars (m + 1)).dropWhile (fun ch => ch.isWhitespace) =
        '-' :: natDecChars (m + 1) := by
      rw [List.dropWhile_cons]
      simp
    rw [hdrop, jsParseIntAux, if_pos rfl]
    unfold natDecChars
    rcases hds : (natDecCharsAux (m + 1) (m + 1)).reverse with _ | ⟨c, cs⟩
    · exfalso
      rw [natDecCharsAux] at hds
      simp at hds
    · have hmem : ∀ x ∈ c :: cs, x.isDigit = true ∧ x.isWhitespace = false ∧
          x ≠ '-' ∧ x ≠ '+' := by
        intro x hx
        refine natDecCharsAux_good (m + 1) (m + 1) x ?_
        have hx2 : x ∈ (natDecCharsAux (m + 1) (m + 1)).reverse := by
          rw [hds]; exact hx
        simpa using hx2
      unfold jsDigitsPrefixVal
      rw [takeWhile_all (c :: cs) (fun x hx => (hmem x hx).1)]
      have hval : digitsToNat (c :: cs) = m + 1 := by
        rw [← hds]
        exact digitsToNat_natDecCharsAux _ _ (le_refl _)
      simp [hval]
      omega

/-- A key whose `parseInt` fails is never a canonical decimal spelling. -/
theorem ne_jsIntToString_of_parse_none (k : String) (h : jsParseInt k = none) (n : Int) :
    k ≠ jsIntToString n := by
  intro hk
  rw [hk, jsParseInt_jsIntToString] at h
  cases h

theorem count_filterMap_parse (l : List String) (n : Int) :
    (l.filterMap jsParseInt).count n = l.countP (fun k => jsParseInt k == some n) := by
  induction l with
  | nil => rfl
  | cons k ks ih =>
    rw [List.filterMap_cons, List.countP_cons]
    rcases h : jsParseInt k with _ | j
    · simp [h, ih]
    · rw [List.count_cons, ih]
      simp [h]

theorem two_le_countP {α : Type} (p : α → Bool) (l : List α) (a b : α)
    (ha : a ∈ l) (hb : b ∈ l) (hab : a ≠ b) (hpa : p a = true) (hpb : p b = true) :
    2 ≤ l.countP p := by
  induction l with
  | nil => cases ha
  | cons c t ih =>
    rw [List.countP_cons]
    rcases List.mem_cons.mp ha with rfl | hat
    · have hbt : b ∈ t := by
        rcases List.mem_cons.mp hb with h | h
        · exact absurd h.symm hab
        · exact h
      have h1 : 0 < t.countP p := List.countP_pos_iff.mpr ⟨b, hbt, hpb⟩
      rw [if_pos hpa]
      omega
    · rcases List.mem_cons.mp hb with rfl | hbt
      · have h1 : 0 < t.countP p := List.countP_pos_iff.mpr ⟨a, hat, hpa⟩
        rw [if_pos hpb]
        omega
      · have h2 := ih hat hbt
        have h0 : (0:Nat) ≤ if p c then 1 else 0 := by positivity
        omega

theorem dedup_length_lt_of_not_nodup {α : Type} [DecidableEq α] (l : List α)
    (h : ¬ l.Nodup) : l.dedup.length < l.length := by
  have hsub := List.dedup_sublist l
  have hle := hsub.length_le
  rcases lt_or_eq_of_le hle with hlt | heq
  · exact hlt
  · exfalso
    have hdl : l.dedup = l := hsub.eq_of_length heq
    exact h (hdl ▸ List.nodup_dedup l)

/-- Layout-A array container holding one node with key "-1" and leaf text
"q": used to exhibit what `parseArray` does with a negative parsed index. -/
def negDemoNode : Dom := mkEl "div" ["database-node"] [] "" [
  mkEl "span" ["database-key"] [] "-1" [],
  mkEl "span" ["database-leaf-value"] [] "q" []]

/-- The `.database-children` container around `negDemoNode`. -/
def negDemoContainer : Dom := mkEl "div" ["database-children"] [] "" [
  mkEl "f7e-data-tree" [] [] "" [negDemoNode]]

/-- C1 counterexample: `convertMapToArray` does not gap-fill; on the claim's
own example it returns the two-element compacted sequence, not
`[B, Null, A]` of length max index + 1. -/
theorem c1_counterexample :
    convertMapToArray [("2", Value.str "A"), ("0", Value.str "B")] =
      [Value.str "B", Value.str "A"] ∧
    convertMapToArray [("2", Value.str "A"), ("0", Value.str "B")] ≠
      [Value.str "B", Value.null, Value.str "A"] := by
  constructor
  · rfl
  · intro h
    have h3 := congrArg List.length h
    have h2 : (convertMapToArray [("2", Value.str "A"), ("0", Value.str "B")]).length = 2 := rfl
    rw [h2] at h3
    simp at h3

/-- C1 (amended): `convertMapToArray` returns one element per key whose
`parseInt` succeeds, in ascending order of parsed value, each element looked
up under the canonical decimal spelling; there is no Null gap-filling, so
the length is the number of surviving keys (not max index + 1), the claim's
example yields `[B, A]`, and a mapping with no parseable key yields `[]`. -/
theorem c1_amended_convertMapToArray (m : JsMap) (A B : Value) :
    convertMapToArray [("2", A), ("0", B)] = [B, A] ∧
    ((∀ k ∈ m.map Prod.fst, jsParseInt k = none) → convertMapToArray m = []) ∧
    (convertMapToArray m).length = ((m.map Prod.fst).filterMap jsParseInt).length ∧
    List.Sorted (· ≤ ·) (cmtaKeys m) ∧
    convertMapToArray m = (cmtaKeys m).map (fun k => jsGet m (jsIntToString k)) := by
  have hlen : (cmtaKeys m).length = ((m.map Prod.fst).filterMap jsParseInt).length :=
    (List.perm_insertionSort _ _).length_eq
  refine ⟨rfl, ?_, ?_, ?_, ?_⟩
  · intro h
    have hfm : (m.map Prod.fst).filterMap jsParseInt = [] := by
      rw [List.filterMap_eq_nil_iff]
      exact h
    unfold convertMapToArray cmtaKeys
    rw [hfm]
    rfl
  · unfold convertMapToArray
    split
    · next h =>
      rw [List.isEmpty_iff] at h
      rw [h] at hlen
      simp at hlen ⊢
      omega
    · rw [List.length_map, hlen]
  · exact List.sorted_insertionSort _ _
  · unfold convertMapToArray
    split
    · next h =>
      rw [List.isEmpty_iff] at h
      rw [h]
      rfl
    · rfl

/-- C1 witness: the no-parseable-key clause at a concrete input plus the
claim's own example, discharged by applying the amended theorem. -/
theorem c1_witness :
    convertMapToArray [("x", Value.str "A")] = [] ∧
    convertMapToArray [("2", Value.str "A"), ("0", Value.str "B")] =
      [Value.str "B", Value.str "A"] := by
  have h := c1_amended_convertMapToArray [("x", Value.str "A")] (Value.str "A") (Value.str "B")
  exact ⟨h.2.1 (by decide), h.1⟩

/-- C2 counterexample: a key parsing to a negative integer is not dropped by
`convertMapToArray`; its value shows up as an element. -/
theorem c2_counterexample :
    convertMapToArray [("-1", Value.str "A")] = [Value.str "A"] ∧
    convertMapToArray [("-1", Value.str "A")] ≠ ([] : List Value) := by
  constructor
  · rfl
  · intro h
    have h3 := congrArg List.length h
    have h2 : (convertMapToArray [("-1", Value.str "A")]).length = 1 := rfl
    rw [h2] at h3
    simp at h3

/-- C2 (amended): array reconstruction keeps exactly the keys whose leading
integer parse (`parseInt`) succeeds, including negative ones.  A key whose
parse fails contributes nothing to `convertMapToArray`; a negative key does
contribute an element there; in `parseArray` a negative parsed index records
a non-element property which the dense array view ignores. -/
theorem c2_amended_parse_int_keys (m : JsMap) (kbad : String) (v w : Value) :
    (jsParseInt kbad = none → convertMapToArray ((kbad, v) :: m) = convertMapToArray m) ∧
    convertMapToArray [("-1", v)] = [v] ∧
    (∀ (i : Int) (as : List (Int × Value)), i < 0 →
      jsArrayFromAssigns ((i, w) :: as) = jsArrayFromAssigns as) ∧
    parseArrayAssigns (some negDemoContainer) = [(-1, Value.str "q")] ∧
    parseArray (some negDemoContainer) = Value.arr [] := by
  refine ⟨?_, rfl, ?_, rfl, rfl⟩
  · intro h
    have hkeys : cmtaKeys ((kbad, v) :: m) = cmtaKeys m := by
      unfold cmtaKeys
      rw [List.map_cons, List.filterMap_cons]
      simp [h]
    unfold convertMapToArray
    rw [hkeys]
    split
    · rfl
    · apply List.map_congr_left
      intro k _
      unfold jsGet
      rw [List.find?_cons_of_neg]
      intro hc
      have hkb : kbad = jsIntToString k := by simpa using hc
      exact ne_jsIntToString_of_parse_none kbad h k hkb
  · intro i as hi
    unfold jsArrayFromAssigns
    have ht : ((i + 1).toNat) = 0 := by omega
    have hlen : ((i, w) :: as).foldl (fun acc p => max acc (p.1 + 1).toNat) 0 =
        as.foldl (fun acc p => max acc (p.1 + 1).toNat) 0 := by
      rw [List.foldl_cons]
      simp [ht]
    rw [hlen]
    apply List.map_congr_left
    intro j hj
    unfold lastAssignAt
    rw [List.filter_cons_of_neg]
    simp only [decide_eq_true_eq]
    intro hc
    have hij : i = (j : Int) := by simpa using hc
    omega

/-- C2 witness: the drop clause and the negative-index clause at concrete
inputs, discharged by applying the amended theorem. -/
theorem c2_witness :
    convertMapToArray [("x", Value.null), ("0", Value.str "A")] =
      convertMapToArray [("0", Value.str "A")] ∧
    jsArrayFromAssigns [((-1 : Int), Value.str "q")] = jsArrayFromAssigns [] := by
  have h := c2_amended_parse_int_keys [("0", Value.str "A")] "x" Value.null (Value.str "q")
  exact ⟨h.1 (by decide), h.2.2.1 (-1) [] (by decide)⟩

/-- C10: when two distinct key spellings parse to the same integer, the
duplicate survives into the sorted key list (its multiplicity there equals
the number of spellings parsing to it), every position holding that integer
yields the value looked up under the canonical decimal spelling, every
output element comes from such a canonical lookup, and the output is
strictly longer than the number of distinct parsed indices. -/
theorem c10_duplicate_spellings (m : JsMap) (k1 k2 : String) (n : Int)
    (_hnd : (m.map Prod.fst).Nodup) (h1 : k1 ∈ m.map Prod.fst) (h2 : k2 ∈ m.map Prod.fst)
    (hne : k1 ≠ k2) (p1 : jsParseInt k1 = some n) (p2 : jsParseInt k2 = some n) :
    2 ≤ (cmtaKeys m).count n ∧
    (cmtaKeys m).count n = (m.map Prod.fst).countP (fun k => jsParseInt k == some n) ∧
    (∀ i : Nat, (cmtaKeys m)[i]? = some n →
      (convertMapToArray m)[i]? = some (jsGet m (jsIntToString n))) ∧
    (∀ u ∈ convertMapToArray m, ∃ j ∈ cmtaKeys m, u = jsGet m (jsIntToString j)) ∧
    (cmtaKeys m).dedup.length < (convertMapToArray m).length := by
  have hcount_eq : (cmtaKeys m).count n = ((m.map Prod.fst).filterMap jsParseInt).count n :=
    (List.perm_insertionSort _ _).count_eq n
  have hcfm : ((m.map Prod.fst).filterMap jsParseInt).count n =
      (m.map Prod.fst).countP (fun k => jsParseInt k == some n) := count_filterMap_parse _ n
  have h2le : 2 ≤ (m.map Prod.fst).countP (fun k => jsParseInt k == some n) :=
    two_le_countP _ _ k1 k2 h1 h2 hne (by simp [p1]) (by simp [p2])
  have hc2 : 2 ≤ (cmtaKeys m).count n := by
    rw [hcount_eq, hcfm]
    exact h2le
  have hne_nil : ¬ (cmtaKeys m).isEmpty = true := by
    intro he
    rw [List.isEmpty_iff] at he
    rw [he] at hc2
    simp at hc2
  have hform : convertMapToArray m = (cmtaKeys m).map (fun k => jsGet m (jsIntToString k)) := by
    unfold convertMapToArray
    rw [if_neg hne_nil]
  refine ⟨hc2, by rw [hcount_eq, hcfm], ?_, ?_, ?_⟩
  · intro i hi
    rw [hform, List.getElem?_map, hi]
    rfl
  · intro u hu
    rw [hform] at hu
    rcases List.mem_map.mp hu with ⟨j, hj, hju⟩
    exact ⟨j, hj, hju.symm⟩
  · rw [hform, List.length_map]
    apply dedup_length_lt_of_not_nodup
    intro hnd2
    have hle1 := List.nodup_iff_count_le_one.mp hnd2 n
    omega

/-- C10 witness: the duplicate-spelling mapping with "1" and "01" both
parsing to 1, discharged by applying the theorem. -/
theorem c10_witness :
    2 ≤ (cmtaKeys [("1", Value.str "A"), ("01", Value.str "B")]).count 1 ∧
    (cmtaKeys [("1", Value.str "A"), ("01", Value.str "B")]).dedup.length <
      (convertMapToArray [("1", Value.str "A"), ("01", Value.str "B")]).length := by
  have h := c10_duplicate_spellings [("1", Value.str "A"), ("01", Value.str "B")] "1" "01" 1
    (by decide) (by decide) (by decide) (by decide) (by decide) (by decide)
  exact ⟨h.1, h.2.2.2.2⟩

/-- The untyped coercion pipeline exactly as claim C3 words it (quote strip,
scalar match, numeric parse, fallback) with NO initial whitespace trim:
the comparison definition for the refinement check. -/
def leafCoerceClaimC3 (rawText : String) : Value :=
  let value := if jsStartsWith rawText '"' && jsEndsWith rawText '"' then
    jsStripEnds rawText else rawText
  if jsToLower value = "true" then Value.bool true
  else if jsToLower value = "false" then Value.bool false
  else if jsToLower value = "null" then Value.null
  else if jsStrToNumber value ≠ JsNum.nan ∧ value ≠ "" then Value.num (jsStrToNumber value)
  else Value.str value

/-- C3 counterexample: the claim's pipeline (no trim) disagrees with the
code on text carrying leading whitespace. -/
theorem c3_counterexample :
    parseLeafValue " true" = Value.bool true ∧
    leafCoerceClaimC3 " true" = Value.str " true" ∧
    Value.bool true ≠ Value.str " true" := by
  refine ⟨rfl, rfl, ?_⟩
  exact fun h => Value.noConfusion h

/-- C3 (amended): `parseLeafValue` first trims surrounding whitespace and
then follows exactly the claim's pipeline: strip one layer of surrounding
matching double quotes, match true/false/null case-insensitively, then the
full-string numeric parse (the empty string is never numeric), else the
quote-stripped string.  It is a total function - it never throws. -/
theorem c3_amended_trim_first (rawText : String) :
    parseLeafValue rawText = leafCoerceClaimC3 (jsTrim rawText) := rfl

/-- The typed coercion pipeline exactly as claim C4 words it  - in
particular with the `(string)` branch quote-stripping the UNtrimmed text:
the comparison definition for the refinement check. -/
def emuLeafClaimC4 (raw : Option String) (type : Option String) : Value :=
  let t := jsToLower (type.getD "")
  let txt := raw.getD ""
  if t = "(null)" then Value.null
  else if t = "(boolean)" then Value.bool (jsTrim txt == "true")
  else if t = "(number)" then Value.num (jsStrToNumber (jsTrim txt))
  else if t = "(string)" then
    Value.str (if jsStartsWith txt '"' && jsEndsWith txt '"' then jsStripEnds txt else txt)
  else Value.str (jsTrim txt)

/-- The typed coercion pipeline as amended: the `(string)` branch also works
on the trimmed text, like every other branch. -/
def emuLeafAmendedC4 (raw : Option String) (type : Option String) : Value :=
  let t := jsToLower (type.getD "")
  let txt := raw.getD ""
  if t = "(null)" then Value.null
  else if t = "(boolean)" then Value.bool (jsTrim txt == "true")
  else if t = "(number)" then Value.num (jsStrToNumber (jsTrim txt))
  else if t = "(string)" then
    Value.str (if jsStartsWith (jsTrim txt) '"' && jsEndsWith (jsTrim txt) '"' then
      jsStripEnds (jsTrim txt) else jsTrim txt)
  else Value.str (jsTrim txt)

/-- C4 counterexample: for the `(string)` label the code trims before
stripping quotes; the claim's pipeline returns the text unchanged. -/
theorem c4_counterexample :
    parseEmulatorLeafValue (some " x") (some "(string)") = Value.str "x" ∧
    emuLeafClaimC4 (some " x") (some "(string)") = Value.str " x" ∧
    Value.str "x" ≠ Value.str " x" := by
  refine ⟨rfl, rfl, ?_⟩
  intro h
  injection h with h2
  exact absurd h2 (by decide)

/-- C4 (amended): typed leaf coercion matches the claim once the `(string)`
branch is read as acting on the trimmed text; for `(number)` the result is
the JavaScript numeric parse of the trimmed text, which is the NaN sentinel
on unparseable text but 0 (not NaN) on the empty string. -/
theorem c4_amended_typed_coercion :
    (∀ raw type, parseEmulatorLeafValue raw type = emuLeafAmendedC4 raw type) ∧
    parseEmulatorLeafValue (some "") (some "(number)") = Value.num (JsNum.fin 0) ∧
    (∀ s, jsStrToNumber (jsTrim s) = JsNum.nan →
      parseEmulatorLeafValue (some s) (some "(number)") = Value.num JsNum.nan) := by
  refine ⟨fun raw type => rfl, rfl, ?_⟩
  intro s h
  have hred : parseEmulatorLeafValue (some s) (some "(number)") =
      Value.num (jsStrToNumber (jsTrim s)) := rfl
  rw [hred, h]

/-- Spec-side notion used by claim C6: the LAST NON-EMPTY segment of the
path split on '/'. -/
def lastNonEmptySegment (pathname : String) : Option String :=
  ((jsSplitSlash pathname).filter (fun seg => seg != "")).getLast?

/-- An empty emulator field list inside a document. -/
def demoFFL : Dom := mkEl "ul" ["Firestore-Field-List"] [] "" []

/-- A document whose body holds the emulator field list. -/
def demoDocEmu : Dom := mkEl "html" [] [] "" [mkEl "body" [] [] "" [demoFFL]]

/-- A document with no emulator field list and no panels. -/
def demoEmptyDoc : Dom := mkEl "html" [] [] "" []

/-- A production panel without a header label. -/
def demoPanelPlain : Dom := mkEl "div" ["panel-container"] [] "" []

/-- A production panel whose header label reads " doc42 ". -/
def demoPanelLabeled : Dom := mkEl "div" ["panel-container"] [] "" [
  mkEl "f7e-panel-header" [] [] "" [mkEl "span" ["label"] [] " doc42 " []]]

/-- A document with one panels container holding two open panels. -/
def demoDocProd : Dom := mkEl "html" [] [] "" [
  mkEl "div" ["panels-container"] [] "" [demoPanelPlain, demoPanelLabeled]]

theorem rootSelect_some_not_noRoot (doc root : Dom) :
    rootSelect doc (some root) ≠ RootChoice.noRoot := by
  unfold rootSelect
  by_cases h1 : hasClass root "Firestore-Field-List" = true
  · simp [h1]
  · by_cases h2 : hasClass root "panel-container" = true
    · simp [h1, h2]
    · rcases h3 : findClassL "Firestore-Field-List" (domSize root) root.children with _ | e <;>
        simp [h1, h2, h3]

theorem getFirestoreJSON_error_iff (doc : Dom) (pathname : String) (ctx : Option Dom) :
    (∃ msg, getFirestoreJSON doc pathname ctx = .error msg) ↔
      rootSelect doc ctx = RootChoice.noRoot := by
  unfold getFirestoreJSON
  rcases h : rootSelect doc ctx with e | p | _ <;> simp [h]

theorem rootSelect_none_iff (doc : Dom) :
    rootSelect doc none = RootChoice.noRoot ↔ noRootFound doc = true := by
  unfold rootSelect noRootFound
  rcases h1 : docFindClass doc "Firestore-Field-List" with _ | e
  · rcases h2 : docFindClass doc "panels-container" with _ | pc
    · simp [h1, h2]
    · rcases h3 : (findAllClassL "panel-container" (domSize pc) pc.children).getLast? with _ | p
      · have he : findAllClassL "panel-container" (domSize pc) pc.children = [] :=
          List.getLast?_eq_none_iff.mp h3
        simp [h1, h2, h3, he]
      · have hne : findAllClassL "panel-container" (domSize pc) pc.children ≠ [] := by
          intro he
          rw [he] at h3
          cases h3
        simp [h1, h2, h3, List.isEmpty_iff, hne]
  · simp [h1]

/-- C5: the entry point fails exactly when invoked with no scope on a view
with no emulator field list and no panel under a panels container; with any
explicit scope, and on any view containing a root, every malformation
degrades locally and the call returns a document; on the production path a
missing header label degrades to the fixed placeholder identifier. -/
theorem c5_error_iff_no_root (doc : Dom) (pathname : String) (ctx : Option Dom) :
    ((∃ msg, getFirestoreJSON doc pathname ctx = .error msg) ↔
      (ctx = none ∧ noRootFound doc = true)) ∧
    (∀ panel, findUnderL (fun d => d.tag == "f7e-panel-header")
        (fun d => hasClass d "label") (domSize panel) panel.children false = none →
      prodDocIdOf panel = "UNKNOWN_DOCUMENT_ID") := by
  constructor
  · rw [getFirestoreJSON_error_iff]
    cases ctx with
    | none =>
      rw [rootSelect_none_iff]
      simp
    | some root =>
      constructor
      · intro h
        exact absurd h (rootSelect_some_not_noRoot doc root)
      · rintro ⟨h, -⟩
        cases h
  · intro panel h
    unfold prodDocIdOf
    rw [h]

/-- C5 witness: a rootless view makes the call fail, and a label-less panel
gets the placeholder identifier; both discharged by applying the theorem. -/
theorem c5_witness :
    (∃ msg, getFirestoreJSON demoEmptyDoc "/x" none = Except.error msg) ∧
    prodDocIdOf demoPanelPlain = "UNKNOWN_DOCUMENT_ID" := by
  have h := c5_error_iff_no_root demoEmptyDoc "/x" none
  exact ⟨h.1.mpr ⟨rfl, rfl⟩, h.2 demoPanelPlain rfl⟩

/-- C6 counterexample: with the emulator view open under the path
"/docs/a/", the code derives the empty identifier (the last, empty, segment)
while the claim's "last non-empty segment" is "a". -/
theorem c6_counterexample :
    getFirestoreJSON demoDocEmu "/docs/a/" none =
      Except.ok ⟨"", [("", Value.obj [])]⟩ ∧
    lastNonEmptySegment "/docs/a/" = some "a" ∧
    ("" : String) ≠ "a" := by
  exact ⟨rfl, rfl, by decide⟩

/-- C6 (amended): for every parse under layout B the document identifier is
the LAST segment of the view path split on '/' - possibly the empty string
when the path ends in '/' - independent of which scope was parsed. -/
theorem c6_amended_last_segment (doc : Dom) (pathname : String) (ctx : Option Dom)
    (e : Dom) (h : rootSelect doc ctx = RootChoice.emu e) :
    getFirestoreJSON doc pathname ctx = .ok (emuResultOf pathname e) ∧
    (emuResultOf pathname e).docId = (jsSplitSlash pathname).getLastD "unknown_doc" := by
  constructor
  · unfold getFirestoreJSON
    rw [h]
  · show emuDocIdOf pathname = _
    unfold emuDocIdOf
    rcases hp : jsSplitSlash pathname with _ | ⟨a, rest⟩
    · simp
    · simp

/-- C6 witness: the amended theorem applied to the concrete emulator view
and path "/docs/a", yielding identifier "a". -/
theorem c6_witness :
    getFirestoreJSON demoDocEmu "/docs/a" none =
      Except.ok (emuResultOf "/docs/a" demoFFL) :=
  (c6_amended_last_segment demoDocEmu "/docs/a" none demoFFL rfl).1

/-- C7: in both walkers a container's resulting map has duplicate-free keys
and maps every key to the value of the LAST entry with that key in
traversal (document) order - last write wins. -/
theorem c7_last_write_wins (c : Dom) (k : String) :
    ((parseEmulatorContainer c).map Prod.fst).Nodup ∧
    jsGet (parseEmulatorContainer c) k = lastEntryVal (emuEntries c) k ∧
    (∀ c2, ((parseMap (some c2)).map Prod.fst).Nodup ∧
      jsGet (parseMap (some c2)) k = lastEntryVal (prodEntries c2) k) := by
  exact ⟨nodup_keys_jsObjFromList _, jsGet_jsObjFromList _ _,
    fun c2 => ⟨nodup_keys_jsObjFromList _, jsGet_jsObjFromList _ _⟩⟩

/-- C8: a global invocation prefers any emulator field list found in the
document; otherwise it takes the LAST panel under the first panels
container, and production parsing then runs on exactly that panel. -/
theorem c8_global_root_selection (doc : Dom) (pathname : String) :
    (∀ e, docFindClass doc "Firestore-Field-List" = some e →
      rootSelect doc none = RootChoice.emu e ∧
      getFirestoreJSON doc pathname none = .ok (emuResultOf pathname e)) ∧
    (docFindClass doc "Firestore-Field-List" = none →
      ∀ pc p, docFindClass doc "panels-container" = some pc →
        (findAllClassL "panel-container" (domSize pc) pc.children).getLast? = some p →
        rootSelect doc none = RootChoice.prod p ∧
        getFirestoreJSON doc pathname none = .ok (prodResultOf p)) := by
  constructor
  · intro e he
    constructor
    · unfold rootSelect
      rw [he]
    · unfold getFirestoreJSON rootSelect
      rw [he]
  · intro hffl pc p hpc hlast
    constructor
    · simp [rootSelect, hffl, hpc, hlast]
    · simp [getFirestoreJSON, rootSelect, hffl, hpc, hlast]

/-- C8 witness: a view with two open panels and no emulator root; the call
parses the LAST panel, whose header label is "doc42". -/
theorem c8_witness :
    getFirestoreJSON demoDocProd "/p" none = Except.ok (prodResultOf demoPanelLabeled) ∧
    prodDocIdOf demoPanelLabeled = "doc42" := by
  have h := (c8_global_root_selection demoDocProd "/p").2 rfl
    (mkEl "div" ["panels-container"] [] "" [demoPanelPlain, demoPanelLabeled])
    demoPanelLabeled rfl rfl
  exact ⟨h.2, rfl⟩

/-- C9: with any explicitly supplied scope the entry point cannot fail: a
scope matching neither root marker and containing no emulator field list is
unconditionally treated as a production scope, so the error branch is
unreachable. -/
theorem c9_explicit_scope_never_fails (doc : Dom) (pathname : String) (root : Dom) :
    (∃ r, getFirestoreJSON doc pathname (some root) = .ok r) ∧
    (hasClass root "Firestore-Field-List" = false →
      hasClass root "panel-container" = false →
      findClassL "Firestore-Field-List" (domSize root) root.children = none →
      rootSelect doc (some root) = RootChoice.prod root) := by
  constructor
  · unfold getFirestoreJSON
    rcases h : rootSelect doc (some root) with e | p | _
    · exact ⟨_, rfl⟩
    · exact ⟨_, rfl⟩
    · exact absurd h (rootSelect_some_not_noRoot doc root)
  · intro h1 h2 h3
    unfold rootSelect
    simp [h1, h2, h3]

end FirestoreCopy
